import Mathlib

/-!
Verification of the dbpibus view-scheduling and animation engine.

This file is a shallow embedding, in Lean 4, of the parts of the dbpibus
source that the specification's claims talk about:

* the shift resolution logic of the main loop (`dbpibus.py`, the
  `now_shift` computation),
* the animation scheduling (`BaseView._prepare_animation`,
  `BaseView._do_animation_frame`, and the overriding versions in
  `SimpleAnimationView`),
* the event detection (`event_data.make_views_for_events`),
* the donation count-up interpolation
  (`NormalView._get_displayed_donation_total`),
* the service menu setting node (`service_menu_view._SettingNode`),
* the button handling of `NormalView`, `ServiceMenuView` and of the main
  loop, and
* the CPython `heapq` algorithms (`heappush`, `heappop`, `_siftdown`,
  `_siftup`) through which the main loop maintains its view queue.

Python floats (times in milliseconds, donation totals) are modelled as
exact rationals; Python ints as `Int`/`Nat`; Python `None` as `Option`;
Python exceptions as `Except`/`Option` results.
-/

namespace Dbpibus

/-! ### Shifts and the main loop's shift resolution (dbpibus.py) -/

/-- The `Shift` enum of `shift_data.py`. -/
inductive Shift where
  | dawnGuard
  | alphaFlight
  | nightWatch
  | zetaShift
  | omegaShift
deriving DecidableEq, Repr

/-- `shift_data.get_current_shift`, as a function of the Pacific wall-clock
hour (the only part of the datetime it reads). -/
def getCurrentShift (hour : Nat) : Shift :=
  if 0 ≤ hour ∧ hour < 6 then Shift.zetaShift
  else if 6 ≤ hour ∧ hour < 12 then Shift.dawnGuard
  else if 12 ≤ hour ∧ hour < 18 then Shift.alphaFlight
  else Shift.nightWatch

/-- Python truthiness of an `Optional[bool]` value: `None` is falsy. -/
def truthy : Option Bool → Bool
  | none => false
  | some b => b

/-- The `now_shift` computation of the main loop (`dbpibus.py` lines
139-145), transcribed exactly.  `latestStats` carries only the
`is_omega_shift` field (tri-state `Option Bool`; the outer `Option` is
`t.latest_stats` being `None`).  `clockShift` is the value
`get_current_shift()` returns this tick, and `currentShift` is the
previous tick's effective shift (the `current_shift` variable).

The source initialises `now_shift = None` and then tests
`now_shift == Shift.OMEGA_SHIFT` inside the very condition that is meant
to implement stickiness; that test compares the just-reset `None`, so it
is transcribed here as comparing `nowShift0` (which is `none`). -/
def nowShiftCode (latestStats : Option (Option Bool)) (clockShift : Shift)
    (currentShift : Shift) : Shift :=
  let nowShift0 : Option Shift := none
  match latestStats with
  | some isOmegaShift =>
      if truthy isOmegaShift
          || (isOmegaShift == none && nowShift0 == some Shift.omegaShift) then
        Shift.omegaShift
      else
        clockShift
  | none => clockShift

/-- Modelled from the spec: `resolve_effective_shift` as the specification
words it (spec section 4.3): omega flag `true` gives Omega; omega flag
unknown with previous effective shift Omega stays Omega (sticky);
otherwise the clock classification.  This is the comparison point for
claim C1; the code under `src/` is `nowShiftCode` above. -/
def nowShiftSpec (latestStats : Option (Option Bool)) (clockShift : Shift)
    (currentShift : Shift) : Shift :=
  match latestStats with
  | some isOmegaShift =>
      if isOmegaShift = some true then Shift.omegaShift
      else if isOmegaShift = none ∧ currentShift = Shift.omegaShift then
        Shift.omegaShift
      else clockShift
  | none => clockShift

/-! ### Event detection (event_data.py) -/

/-- The `Event` enum of `event_data.py`. -/
inductive Event where
  | point
  | crash
  | splat
  | stop
deriving DecidableEq, Repr

/-- The four monotonic counters of a `VstData` snapshot that
`make_views_for_events` compares. -/
structure VstCounters where
  points : Int
  crashes : Int
  splats : Int
  stops : Int
deriving DecidableEq, Repr

/-- Reads the counter a given event kind tracks. -/
def VstCounters.counterOf (d : VstCounters) : Event → Int
  | Event.point => d.points
  | Event.crash => d.crashes
  | Event.splat => d.splats
  | Event.stop => d.stops

/-- `event_data.make_views_for_events`, transcribed: the produced views are
abstracted to their `(event, priority)` pair (the view construction in
`make_view_for_event` only selects an animation table and stores the
priority). -/
def makeViewsForEvents (prevData currData : Option VstCounters) :
    List (Event × Int) :=
  match prevData, currData with
  | some p, some c =>
      let events : List (Event × Int) := []
      let events := if p.points < c.points then events ++ [(Event.point, 6)] else events
      let events := if p.splats < c.splats then events ++ [(Event.splat, 7)] else events
      let events := if p.stops < c.stops then events ++ [(Event.stop, 8)] else events
      let events := if p.crashes < c.crashes then events ++ [(Event.crash, 9)] else events
      events
  | _, _ => []

/-- The fixed candidate list of event views in the order and with the
priorities the source hard-codes. -/
def eventCandidates : List (Event × Int) :=
  [(Event.point, 6), (Event.splat, 7), (Event.stop, 8), (Event.crash, 9)]

/-! ### Donation count-up interpolation (normal_view.py) -/

/-- Python's `round` to the nearest integer, ties to even, on an exact
rational. -/
def pyRoundInt (q : ℚ) : ℤ :=
  let f := ⌊q⌋
  let r := q - f
  if r < 1/2 then f
  else if 1/2 < r then f + 1
  else if f % 2 = 0 then f else f + 1

/-- Python's `round(x, 2)`: round to the nearest cent, ties to even. -/
def pyRound2 (q : ℚ) : ℚ := (pyRoundInt (q * 100) : ℚ) / 100

/-- The mutable state `NormalView` keeps for the donation count-up:
`_last_stabilized_donations` and `_last_stabilized_time_millis`. -/
structure DonationState where
  lastStabilizedDonations : ℚ
  lastStabilizedTimeMillis : ℚ
deriving DecidableEq, Repr

/-- `_COUNTUP_ANIMATION_MILLIS` from `normal_view.py`. -/
def countupAnimationMillis : ℚ := 1000

/-- `NormalView._get_displayed_donation_total`, transcribed: takes the
state, the snapshot's `donation_total` and the current time in millis,
and returns the updated state together with the displayed value. -/
def getDisplayedDonationTotal (st : DonationState) (donationTotal : ℚ)
    (rightNowMillis : ℚ) : DonationState × ℚ :=
  if st.lastStabilizedDonations = donationTotal then
    ({ st with lastStabilizedTimeMillis := rightNowMillis }, donationTotal)
  else
    let elapsedTime := rightNowMillis - st.lastStabilizedTimeMillis
    let progressPercent := elapsedTime / countupAnimationMillis
    if 1 ≤ progressPercent then
      ({ lastStabilizedDonations := donationTotal,
         lastStabilizedTimeMillis := rightNowMillis }, donationTotal)
    else
      let donationDifference := donationTotal - st.lastStabilizedDonations
      let fractionalDelta := donationDifference * progressPercent
      (st, pyRound2 (st.lastStabilizedDonations + fractionalDelta))

/-! ### Animation scheduling (base_view.py, simple_animation_view.py) -/

/-- An input animation frame `(time_millis, line1, line2)`: a duration in
milliseconds and the two display lines.  The lines are `Option` so that
the `None`-line error path of `_prepare_animation` can be expressed. -/
abbrev Frame : Type := ℚ × Option String × Option String

/-- A schedule entry `(timestamp_millis, line1, line2)` as produced by
`_prepare_animation`; the trailing sentinel has `none` lines. -/
abbrev Entry : Type := ℚ × Option String × Option String

/-- The loop body of `_prepare_animation` (`base_view.py` lines 30-38,
identical in `simple_animation_view.py`): walk the frame list keeping the
running `next_time_millis`, fail on a `None` line, and append the final
`(next_time_millis, None, None)` sentinel. -/
def prepareAnimationFrom : List Frame → ℚ → Except Unit (List Entry)
  | [], nextTimeMillis => Except.ok [(nextTimeMillis, none, none)]
  | (timeMillis, line1, line2) :: rest, nextTimeMillis =>
      if line1 = none ∨ line2 = none then Except.error ()
      else
        match prepareAnimationFrom rest (nextTimeMillis + timeMillis) with
        | Except.error e => Except.error e
        | Except.ok tailEntries =>
            Except.ok ((nextTimeMillis, line1, line2) :: tailEntries)

/-- `BaseView._prepare_animation` (and the identical
`SimpleAnimationView._prepare_animation`) with an explicit
`start_time_millis`.  `Except.error` is the `ValueError` raised on a
`None` line. -/
def prepareAnimation (animList : List Frame) (startTimeMillis : ℚ) :
    Except Unit (List Entry) :=
  prepareAnimationFrom animList startTimeMillis

/-- The popping loop of `_do_animation_frame`:
`while len(anim_deque) > 1 and anim_deque[1][0] < current_time_millis:
current_frame = anim_deque.popleft()`.  Note the strict `<` against
the NEXT entry's timestamp, and that `popleft()` removes AND RETURNS
the old head, so `current_frame` ends up holding the last POPPED entry
(one position behind the deque's new head) whenever at least one pop
occurs; with no pops it keeps its initial value (the head read by
`current_frame = anim_deque[0]` before the loop).  Returns the final
`current_frame` together with the mutated deque. -/
def animLoop (currentFrame : Entry) (d : List Entry)
    (currentTimeMillis : ℚ) : Entry × List Entry :=
  match d with
  | e0 :: e1 :: rest =>
      if e1.1 < currentTimeMillis then
        animLoop e0 (e1 :: rest) currentTimeMillis
      else (currentFrame, e0 :: e1 :: rest)
  | _ => (currentFrame, d)

/-- The result of one `_do_animation_frame` call: the mutated deque, the
lines displayed (if any), and the returned boolean (`true` = animation
finished). -/
structure AdvanceResult where
  deque : List Entry
  displayed : Option (String × String)
  finished : Bool
deriving DecidableEq, Repr

/-- Shared tail of both `_do_animation_frame` versions, after the
popping loop: `if len(anim_deque) == 0 or current_frame[1] is None or
current_frame[2] is None: return True` else display `current_frame`'s
lines and return `False`.  `currentFrame` is the value left in the
`current_frame` variable by the loop; `d'` is the deque after the
loop. -/
def doAnimationFrameCore (currentFrame : Entry) (d' : List Entry) :
    AdvanceResult :=
  match d', currentFrame with
  | [], _ => { deque := [], displayed := none, finished := true }
  | _ :: _, (_, some s1, some s2) =>
      { deque := d', displayed := some (s1, s2), finished := false }
  | _ :: _, _ => { deque := d', displayed := none, finished := true }

/-- `BaseView._do_animation_frame` (`base_view.py` lines 42-67).  On an
empty deque the very first statement after reading the clock is
`current_frame = anim_deque[0]`, which raises `IndexError`; that is the
`none` result.  Otherwise `current_frame` starts as the head and the
loop runs. -/
def doAnimationFrameBase (animDeque : List Entry) (currentTimeMillis : ℚ) :
    Option AdvanceResult :=
  match animDeque with
  | [] => none
  | e0 :: rest =>
      let r := animLoop e0 (e0 :: rest) currentTimeMillis
      some (doAnimationFrameCore r.1 r.2)

/-- `SimpleAnimationView._do_animation_frame` (`simple_animation_view.py`
lines 65-96): identical except that an empty deque is checked FIRST and
returns finished without touching anything. -/
def doAnimationFrameSimple (animDeque : List Entry) (currentTimeMillis : ℚ) :
    AdvanceResult :=
  match animDeque with
  | [] => { deque := [], displayed := none, finished := true }
  | e0 :: rest =>
      let r := animLoop e0 (e0 :: rest) currentTimeMillis
      doAnimationFrameCore r.1 r.2

/-- A prepared schedule in the shape `_prepare_animation` produces: every
entry but the last has both lines present, and the last entry is the
`(ts, none, none)` sentinel. -/
def WellFormedSchedule (sched : List Entry) : Prop :=
  sched ≠ [] ∧
  (∀ e ∈ sched.dropLast, e.2.1 ≠ none ∧ e.2.2 ≠ none) ∧
  (∃ ts : ℚ, sched.getLast? = some (ts, none, none))

/-! ### The CPython heapq algorithms over views (dbpibus.py main loop)

The main loop keeps its views in a plain Python list manipulated with
`heapq.heappush` / `heapq.heappop`.  Views are compared with
`BaseView.__lt__`, which compares `priority` only, so a view is modelled
as a priority together with an identity tag (the tag never takes part in
comparisons, it only records which object is which).

The loops of CPython's `_siftdown` and `_siftup` are transcribed with an
explicit fuel argument; the callers hand them enough fuel (`pos`,
resp. `len(heap)`) that the fuel never runs out, and the fuel-exhausted
branch coincides with the loop-exit action, so the fuelled function is
exactly the CPython loop. -/

/-- A view as the heap sees it: `BaseView.__lt__` compares `priority`
only (`base_view.py` lines 84-87); `tag` is object identity. -/
structure PyView where
  pri : Int
  tag : Nat
deriving DecidableEq, Repr

instance : Inhabited PyView := ⟨⟨0, 0⟩⟩

/-- CPython `heapq._siftdown`'s `while pos > startpos` loop.  Each
iteration strictly decreases `pos`, so `fuel = pos` never runs out; the
fuel-exhausted action equals the loop-exit action. -/
def siftdownLoop (fuel : Nat) (heap : List PyView) (newitem : PyView)
    (startpos pos : Nat) : List PyView :=
  match fuel with
  | Nat.zero => heap.set pos newitem
  | Nat.succ fuel' =>
      if startpos < pos then
        let parentpos := (pos - 1) / 2
        let parent := heap.getD parentpos default
        if newitem.pri < parent.pri then
          siftdownLoop fuel' (heap.set pos parent) newitem startpos parentpos
        else heap.set pos newitem
      else heap.set pos newitem

/-- CPython `heapq._siftdown(heap, startpos, pos)`. -/
def siftdown (heap : List PyView) (startpos pos : Nat) : List PyView :=
  siftdownLoop pos heap (heap.getD pos default) startpos pos

/-- CPython `heapq.heappush`: append, then sift down from the last
index. -/
def heappush (heap : List PyView) (item : PyView) : List PyView :=
  siftdown (heap ++ [item]) 0 heap.length

/-- CPython `heapq._siftup`'s `while childpos < endpos` loop.  Each
iteration strictly increases `pos`, so `fuel = len(heap)` never runs
out; the fuel-exhausted action equals the loop-exit action (store
`newitem` at the leaf and sift it down). -/
def siftupLoop (fuel : Nat) (heap : List PyView) (newitem : PyView)
    (endpos startpos pos : Nat) : List PyView :=
  match fuel with
  | Nat.zero => siftdownLoop pos (heap.set pos newitem) newitem startpos pos
  | Nat.succ fuel' =>
      let childpos := 2 * pos + 1
      if childpos < endpos then
        let rightpos := childpos + 1
        let childpos :=
          if rightpos < endpos ∧
              ¬ (heap.getD childpos default).pri < (heap.getD rightpos default).pri then
            rightpos
          else childpos
        siftupLoop fuel' (heap.set pos (heap.getD childpos default)) newitem
          endpos startpos childpos
      else
        siftdownLoop pos (heap.set pos newitem) newitem startpos pos

/-- CPython `heapq._siftup(heap, pos)` (its `startpos` is `pos`). -/
def siftup (heap : List PyView) (pos : Nat) : List PyView :=
  siftupLoop heap.length heap (heap.getD pos default) heap.length pos pos

/-- CPython `heapq.heappop`: pop the last element; if the heap is still
non-empty, move the last element to the root and sift up.  `none` is the
`IndexError` raised on an empty heap. -/
def heappop (heap : List PyView) : Option (PyView × List PyView) :=
  match heap.getLast? with
  | none => none
  | some lastelt =>
      match heap.dropLast with
      | [] => some (lastelt, [])
      | r0 :: rest => some (r0, siftup ((r0 :: rest).set 0 lastelt) 0)

/-- The priority stored at index `i` (out-of-range reads give the
default; all uses are guarded by length bounds). -/
def priAt (l : List PyView) (i : Nat) : Int := (l.getD i default).pri

/-- The binary-heap ordering invariant of CPython's heapq: every
non-root element is at least its parent. -/
def HeapInvariant (l : List PyView) : Prop :=
  ∀ i : Nat, 0 < i → i < l.length → priAt l ((i - 1) / 2) ≤ priAt l i

/-- One main-loop operation on the view queue. -/
inductive QueueOp where
  | push (v : PyView)
  | pop
deriving DecidableEq, Repr

/-- Applies one queue operation; a `pop` on an empty queue leaves it
empty (the main loop never pops an empty queue). -/
def applyQueueOp (l : List PyView) : QueueOp → List PyView
  | QueueOp.push v => heappush l v
  | QueueOp.pop =>
      match heappop l with
      | some (_, l') => l'
      | none => l

/-- The view queue after a sequence of operations, starting (as the main
loop does) from the empty list. -/
def runQueueOps (ops : List QueueOp) : List PyView :=
  ops.foldl applyQueueOp []

/-! ### Buttons and view button handling (button_handler.py, normal_view.py,
service_menu_view.py, dbpibus.py) -/

/-- The `ButtonData` frozen dataclass of `button_handler.py`. -/
structure ButtonData where
  back : Bool := false
  minus : Bool := false
  plus : Bool := false
  select : Bool := false
deriving DecidableEq, Repr

/-- Python exceptions the modelled code can raise. -/
inductive PyErr where
  | attributeError
  | indexError
  | valueError
deriving DecidableEq, Repr

/-- The Python value a view's `handle_buttons` returns: `None`, a bool,
or a freshly constructed view object. -/
inductive HandleResult where
  | pyNone
  | pyTrue
  | pyFalse
  | pyView (v : PyView)
deriving DecidableEq, Repr

/-- Python truthiness of a `HandleResult` (`None` and `False` are falsy;
any view object is truthy). -/
def truthyResult : HandleResult → Bool
  | HandleResult.pyNone => false
  | HandleResult.pyFalse => false
  | HandleResult.pyTrue => true
  | HandleResult.pyView _ => true

/-- `NormalView.handle_buttons` (`normal_view.py` lines 199-208).  The
`_previous_buttons` attribute is modelled as
`Option (Option ButtonData)`: the outer `none` means the attribute was
never assigned (no constructor in the class hierarchy assigns it), in
which case the first read raises `AttributeError`; the inner value is
the Python `None`-or-`ButtonData`.  `serviceCreditNew`/`serviceMenuNew`
stand for the view objects `ServiceCreditView(self._lcd)` /
`ServiceMenuView(self._lcd)` the method constructs.  Returns the
Python return value together with the updated attribute. -/
def normalViewHandleButtons (previousButtonsAttr : Option (Option ButtonData))
    (buttons : ButtonData) (serviceCreditNew serviceMenuNew : PyView) :
    Except PyErr (HandleResult × Option (Option ButtonData)) :=
  match previousButtonsAttr with
  | none => Except.error PyErr.attributeError
  | some prev =>
      let toReturn : HandleResult :=
        match prev with
        | none => HandleResult.pyNone
        | some pb =>
            if buttons.back && !pb.back then HandleResult.pyView serviceCreditNew
            else if buttons.select && !pb.select then HandleResult.pyView serviceMenuNew
            else HandleResult.pyNone
      Except.ok (toReturn, some (some buttons))

/-- The `_previous_buttons` attribute state of a freshly constructed
`NormalView`: `NormalView.__init__` and `BaseView.__init__` assign
`_start_time`, `_last_stabilized_donations`,
`_last_stabilized_time_millis`, `_last_frame_millis` and `_lcd`, but
never `_previous_buttons`, so the attribute is absent. -/
def freshNormalViewPrevAttr : Option (Option ButtonData) := none

/-- The `_ReturnType` enum of `service_menu_view.py`. -/
inductive MenuReturnType where
  | stayHere
  | pushMenu
  | popStack
  | goToView
deriving DecidableEq, Repr

/-- The mutable state of a `ServiceMenuView` relevant to its
`handle_buttons`: the menu stack (top of stack is the LAST list entry,
as in the Python list) and the `_previous_buttons` attribute (outer
`none` = attribute never assigned, as for `NormalView`). -/
structure ServiceMenuState (Node : Type) where
  menuStack : List Node
  previousButtonsAttr : Option (Option ButtonData)

/-- `ServiceMenuView.handle_buttons` (`service_menu_view.py` lines
381-414).  The dynamic dispatch `self._menu_stack[-1].handle_buttons`
is a parameter `nodeHandleButtons` returning the `(rtype, extra)` pair,
with `extra` split into the pushed menu node (for `PUSH_MENU`) and the
test view `self._get_test_view(extra)` resolves to (for `GO_TO_VIEW`). -/
def serviceMenuViewHandleButtons {Node : Type}
    (nodeHandleButtons : Node → ButtonData → MenuReturnType × Option Node × Option PyView)
    (st : ServiceMenuState Node) (buttons : ButtonData) :
    Except PyErr (ServiceMenuState Node × HandleResult) :=
  if st.menuStack.length = 0 then
    Except.ok (st, HandleResult.pyTrue)
  else
    match st.previousButtonsAttr with
    | none => Except.error PyErr.attributeError
    | some prev =>
        if prev ≠ none ∧ prev ≠ some buttons then
          match st.menuStack.getLast? with
          | none =>
              -- unreachable: the stack was tested non-empty above
              Except.ok (st, HandleResult.pyTrue)
          | some top =>
              match nodeHandleButtons top buttons with
              | (MenuReturnType.popStack, _, _) =>
                  let stack1 := st.menuStack.dropLast
                  let stack2 := if stack1.length = 1 then stack1.dropLast else stack1
                  Except.ok ({ menuStack := stack2,
                               previousButtonsAttr := some (some buttons) },
                             HandleResult.pyTrue)
              | (MenuReturnType.pushMenu, extraNode, _) =>
                  Except.ok ({ menuStack := st.menuStack ++ extraNode.toList,
                               previousButtonsAttr := some (some buttons) },
                             HandleResult.pyTrue)
              | (MenuReturnType.goToView, _, extraView) =>
                  Except.ok ({ st with previousButtonsAttr := some (some buttons) },
                             match extraView with
                             | some v => HandleResult.pyView v
                             | none => HandleResult.pyNone)
              | (MenuReturnType.stayHere, _, _) =>
                  Except.ok ({ st with previousButtonsAttr := some (some buttons) },
                             HandleResult.pyTrue)
        else
          Except.ok ({ st with previousButtonsAttr := some (some buttons) },
                     HandleResult.pyTrue)

/-- A freshly constructed `ServiceMenuView`: `__init__` sets
`self._menu_stack = [_TopLevel("Top Level")]` and never assigns
`_previous_buttons`. -/
def freshServiceMenuState (Node : Type) (topLevel : Node) : ServiceMenuState Node :=
  { menuStack := [topLevel], previousButtonsAttr := none }

/-- The button-handling section of the main loop (`dbpibus.py` lines
173-189), for one tick on which `latest_stats` is present.
`handleResult` is the value `views[0].handle_buttons(latest_stats,
buttons)` returned; `previousButtons` is the loop's own
`previous_buttons`; `serviceCreditNew`/`serviceMenuNew` are the view
objects the global policy would construct.  Returns the view queue and
the new `previous_buttons`.  Note the main loop only tests the handle
result for truthiness: a view object returned by the top view is
discarded, not pushed. -/
def mainLoopButtonPhase (views : List PyView) (handleResult : HandleResult)
    (previousButtons : Option ButtonData) (buttons : ButtonData)
    (serviceCreditNew serviceMenuNew : PyView) :
    List PyView × Option ButtonData :=
  let views1 :=
    if !(truthyResult handleResult) then
      if buttons.back &&
          (match previousButtons with | none => true | some pb => !pb.back) then
        heappush views serviceCreditNew
      else if buttons.select &&
          (match previousButtons with | none => true | some pb => !pb.select) then
        heappush views serviceMenuNew
      else views
    else views
  (views1, some buttons)

/-! ### The service menu setting node (service_menu_view.py) -/

/-- `_SAVE_DISPLAY_MILLIS` from `service_menu_view.py`. -/
def saveDisplayMillis : ℚ := 1000

/-- Python `str.ljust(16)`. -/
def ljust16 (s : String) : String :=
  s ++ String.mk (List.replicate (16 - s.length) ' ')

/-- Python `str.rjust(16)`. -/
def rjust16 (s : String) : String :=
  String.mk (List.replicate (16 - s.length) ' ') ++ s

/-- The state of a `_SettingNode`: its title, the option list as
`(title, value)` pairs (option values abstracted to `Nat`), the current
selection index (a Python int, hence `Int`), and `_save_time_millis`. -/
structure SettingNode where
  title : String
  options : List (String × Nat)
  currentIndex : Int
  saveTimeMillis : ℚ
deriving DecidableEq, Repr

/-- Python list read `options[i]` for the in-range indices these states
use. -/
def optionAt (options : List (String × Nat)) (i : Int) : String × Nat :=
  options.getD i.toNat ("", 0)

/-- `_SettingNode._is_displaying_saved`. -/
def SettingNode.isDisplayingSaved (n : SettingNode) (nowMillis : ℚ) : Bool :=
  nowMillis < n.saveTimeMillis + saveDisplayMillis

/-- `_SettingNode.handle_buttons` (`service_menu_view.py` lines
144-169): returns the updated node, the `_ReturnType`, and the value
passed to `set_setting` when a save happened (`none` otherwise). -/
def SettingNode.handleButtons (n : SettingNode) (buttons : ButtonData)
    (nowMillis : ℚ) : SettingNode × MenuReturnType × Option Nat :=
  if n.isDisplayingSaved nowMillis then
    (n, MenuReturnType.stayHere, none)
  else if buttons.back then
    (n, MenuReturnType.popStack, none)
  else if buttons.select then
    ({ n with saveTimeMillis := nowMillis }, MenuReturnType.stayHere,
      some (optionAt n.options n.currentIndex).2)
  else
    let n1 :=
      if buttons.minus then
        let i := n.currentIndex - 1
        { n with currentIndex := if i < 0 then (n.options.length : Int) - 1 else i }
      else n
    let n2 :=
      if buttons.plus then
        let i := n1.currentIndex + 1
        { n1 with currentIndex := if (n1.options.length : Int) ≤ i then 0 else i }
      else n1
    (n2, MenuReturnType.stayHere, none)

/-- `_SettingNode.get_current_display` (`service_menu_view.py` lines
171-176). -/
def SettingNode.getCurrentDisplay (n : SettingNode) (nowMillis : ℚ) :
    String × String :=
  if n.isDisplayingSaved nowMillis then
    (ljust16 n.title, "     Saved!     ")
  else
    (ljust16 n.title, rjust16 (optionAt n.options n.currentIndex).1)

/-- The sum of the durations of a frame list. -/
def durationsSum (frames : List Frame) : ℚ := (frames.map fun f => f.1).sum

/-- The timestamp the spec assigns to entry `i` of a schedule prepared
from `frames` at `startTime`: the start time plus the sum of the first
`i` durations. -/
def tsAt (frames : List Frame) (startTime : ℚ) (i : Nat) : ℚ :=
  startTime + durationsSum (frames.take i)

theorem tsAt_zero (frames : List Frame) (t : ℚ) : tsAt frames t 0 = t := by
  simp [tsAt, durationsSum]

theorem tsAt_cons (d : ℚ) (x y : Option String) (rest : List Frame) (t : ℚ)
    (i : Nat) : tsAt ((d, x, y) :: rest) t (i + 1) = tsAt rest (t + d) i := by
  simp only [tsAt, durationsSum, List.take_succ_cons, List.map_cons, List.sum_cons]
  ring

theorem tsAt_full (frames : List Frame) (t : ℚ) :
    tsAt frames t frames.length = t + durationsSum frames := by
  simp [tsAt, List.take_length]

/-- Structural characterization of a successful `_prepare_animation`
run: the schedule has one entry per frame plus the sentinel, entry `i`
carries timestamp `t` plus the sum of the first `i` durations, the
non-sentinel entries carry the frames' lines (which are non-null), and
the final entry carries `t` plus the sum of all durations and null
lines. -/
theorem prepareAnimationFrom_ok_spec (frames : List Frame) (t : ℚ)
    (sched : List Entry)
    (h : prepareAnimationFrom frames t = Except.ok sched) :
    sched.length = frames.length + 1 ∧
    (∀ i, i ≤ frames.length → (sched.getD i default).1 = tsAt frames t i) ∧
    (∀ i, i < frames.length →
      (sched.getD i default).2 = (frames.getD i default).2) ∧
    (sched.getD frames.length default).2 = (none, none) ∧
    (∀ i, i < frames.length →
      (frames.getD i default).2.1 ≠ none ∧ (frames.getD i default).2.2 ≠ none) := by
  induction frames generalizing t sched with
  | nil =>
      simp only [prepareAnimationFrom, Except.ok.injEq] at h
      subst h
      refine ⟨rfl, ?_, ?_, rfl, ?_⟩
      · intro i hi
        have hi0 : i = 0 := Nat.le_zero.mp hi
        subst hi0
        simp [tsAt_zero]
      · intro i hi
        exact absurd hi (Nat.not_lt_zero i)
      · intro i hi
        exact absurd hi (Nat.not_lt_zero i)
  | cons f rest ih =>
      obtain ⟨d, l1, l2⟩ := f
      simp only [prepareAnimationFrom] at h
      split at h
      · exact absurd h (by simp)
      · rename_i hlines
        push_neg at hlines
        cases hrec : prepareAnimationFrom rest (t + d) with
        | error e =>
            rw [hrec] at h
            exact absurd h (by simp)
        | ok tl =>
            rw [hrec] at h
            simp only [Except.ok.injEq] at h
            subst h
            obtain ⟨ihlen, ihts, ihlines2, ihlast, ihnn⟩ := ih (t + d) tl hrec
            refine ⟨by simp [ihlen], ?_, ?_, ?_, ?_⟩
            · intro i hi
              cases i with
              | zero => simp [tsAt_zero]
              | succ i' =>
                  have : i' ≤ rest.length := by simpa using hi
                  calc (((t, l1, l2) :: tl).getD (i' + 1) default).1
                      = (tl.getD i' default).1 := rfl
                    _ = tsAt rest (t + d) i' := ihts i' this
                    _ = tsAt ((d, l1, l2) :: rest) t (i' + 1) := (tsAt_cons d l1 l2 rest t i').symm
            · intro i hi
              cases i with
              | zero => rfl
              | succ i' =>
                  have : i' < rest.length := by simpa using hi
                  exact ihlines2 i' this
            · exact ihlast
            · intro i hi
              cases i with
              | zero => exact hlines
              | succ i' =>
                  have : i' < rest.length := by simpa using hi
                  exact ihnn i' this

/-- `_prepare_animation` raises `ValueError` exactly when some frame has
a null line. -/
theorem prepareAnimationFrom_error_iff (frames : List Frame) (t : ℚ) :
    prepareAnimationFrom frames t = Except.error () ↔
      ∃ f ∈ frames, f.2.1 = none ∨ f.2.2 = none := by
  induction frames generalizing t with
  | nil => simp [prepareAnimationFrom]
  | cons f rest ih =>
      obtain ⟨d, l1, l2⟩ := f
      simp only [prepareAnimationFrom]
      split
      · rename_i hlines
        simp only [eq_self_iff_true, true_iff]
        exact ⟨(d, l1, l2), List.mem_cons_self _ _, hlines⟩
      · rename_i hlines
        push_neg at hlines
        cases hrec : prepareAnimationFrom rest (t + d) with
        | error e =>
            cases e
            simp only [eq_self_iff_true, true_iff]
            obtain ⟨f, hf, hbad⟩ := (ih (t + d)).mp hrec
            exact ⟨f, List.mem_cons_of_mem _ hf, hbad⟩
        | ok tl =>
            constructor
            · intro hcontr
              exact absurd hcontr (by simp)
            · rintro ⟨f, hf, hbad⟩
              rcases List.mem_cons.mp hf with hf0 | hfr
              · subst hf0
                rcases hbad with hb | hb
                · exact absurd hb hlines.1
                · exact absurd hb hlines.2
              · have : prepareAnimationFrom rest (t + d) = Except.error () :=
                  (ih (t + d)).mpr ⟨f, hfr, hbad⟩
                rw [hrec] at this
                exact absurd this (by simp)

/-! ## Theorems -/

/-- Claim C1 (evidence for the code bug): the sticky-Omega rule does not
hold in the code.  The main loop resets `now_shift = None` immediately
before testing `now_shift == Shift.OMEGA_SHIFT` inside the Omega
condition, so the comparison that the comment above it says should keep
Omega sticky is always false.  Consequently, when `is_omega_shift` is
unknown (`None`), the computed shift is always the clock shift,
regardless of the previous effective shift; in particular, with
previous effective shift Omega, unknown flag, and clock shift Dawn
Guard, the code yields Dawn Guard where the spec (and the code's own
comment, `dbpibus.py` lines 133-138) requires Omega, as the
spec-modelled `nowShiftSpec` shows. -/
theorem nowShift_unknown_flag_not_sticky :
    (∀ clockShift currentShift,
        nowShiftCode (some none) clockShift currentShift = clockShift) ∧
    nowShiftCode (some none) Shift.dawnGuard Shift.omegaShift = Shift.dawnGuard ∧
    nowShiftSpec (some none) Shift.dawnGuard Shift.omegaShift = Shift.omegaShift :=
  ⟨fun _ _ => rfl, rfl, rfl⟩

/-- Claim C4 (evidence for the code bug): the main loop tests the value
returned by `views[0].handle_buttons` only for truthiness (`if not
views[0].handle_buttons(...)`) and never pushes it, so a view object
returned by the top view is discarded: the queue after the
button-handling section is exactly the queue before it, and a returned
view that was not already queued is not in the queue afterwards. -/
theorem mainLoop_discards_returned_view :
    (∀ (views : List PyView) (previousButtons : Option ButtonData)
        (buttons : ButtonData) (v serviceCreditNew serviceMenuNew : PyView),
        (mainLoopButtonPhase views (HandleResult.pyView v) previousButtons
          buttons serviceCreditNew serviceMenuNew).1 = views) ∧
    (⟨-1, 42⟩ : PyView) ∉
      (mainLoopButtonPhase [⟨9999, 0⟩] (HandleResult.pyView ⟨-1, 42⟩) none
        ⟨false, false, false, true⟩ ⟨5, 1⟩ ⟨0, 2⟩).1 := by
  constructor
  · intro views previousButtons buttons v scn smn
    rfl
  · decide

/-- Claim C10 (evidence for the code bug): the first `handle_buttons`
call on a freshly constructed `NormalView` or `ServiceMenuView` raises
`AttributeError` for every button snapshot, because both methods read
`self._previous_buttons` and no constructor in their class hierarchy
ever assigns that attribute. -/
theorem first_handle_buttons_raises :
    (∀ (buttons : ButtonData) (serviceCreditNew serviceMenuNew : PyView),
        normalViewHandleButtons freshNormalViewPrevAttr buttons
          serviceCreditNew serviceMenuNew =
          Except.error PyErr.attributeError) ∧
    (∀ (Node : Type)
        (nodeHandleButtons :
          Node → ButtonData → MenuReturnType × Option Node × Option PyView)
        (topLevel : Node) (buttons : ButtonData),
        serviceMenuViewHandleButtons nodeHandleButtons
          (freshServiceMenuState Node topLevel) buttons =
          Except.error PyErr.attributeError) := by
  constructor
  · intro buttons scn smn
    rfl
  · intro Node nodeHB topLevel buttons
    rfl

/-- Claim C7: `make_views_for_events` emits exactly one `(event,
priority)` view per counter that strictly increased, with the fixed
priorities point = 6, splat = 7, stop = 8, crash = 9 and in exactly
that candidate order (the emitted list is the candidate list filtered
by "the counter strictly increased"); simultaneous increments in
points, splats and crashes yield `[point, splat, crash]`; and the
result is empty whenever either snapshot is absent. -/
theorem makeViewsForEvents_correct :
    (∀ c, makeViewsForEvents none c = []) ∧
    (∀ p, makeViewsForEvents p none = []) ∧
    (∀ p c, makeViewsForEvents (some p) (some c) =
      eventCandidates.filter (fun ev => decide (p.counterOf ev.1 < c.counterOf ev.1))) ∧
    makeViewsForEvents (some ⟨0, 0, 0, 0⟩) (some ⟨1, 1, 1, 0⟩) =
      [(Event.point, 6), (Event.splat, 7), (Event.crash, 9)] := by
  refine ⟨fun c => ?_, fun p => ?_, fun p c => ?_, by decide⟩
  · cases c <;> rfl
  · cases p <;> rfl
  · simp only [makeViewsForEvents, eventCandidates, List.filter, VstCounters.counterOf]
    by_cases h1 : p.points < c.points <;>
      by_cases h2 : p.splats < c.splats <;>
        by_cases h3 : p.stops < c.stops <;>
          by_cases h4 : p.crashes < c.crashes <;>
            simp [h1, h2, h3, h4]

/-- Claim C8: the donation count-up.  With the displayed total
stabilized at `A = st.lastStabilizedDonations` and the snapshot total
changed to `B ≠ A`, sampling at elapsed time
`e = now - st.lastStabilizedTimeMillis`: strictly inside the
1000-millisecond window (`e / 1000 < 1`) the displayed value is
`A + (B - A) * (e / 1000)` rounded to cents and the state is left
unchanged; at or past the end of the window the displayed value is
exactly `B` and the state stabilizes at `B`; once stabilized the
displayed value stays `B` as long as the snapshot total stays `B`.
(Python floats are modelled as exact rationals; `round(x, 2)` is
`pyRound2`.) -/
theorem donation_countup_correct (st : DonationState) (B now : ℚ)
    (hne : st.lastStabilizedDonations ≠ B) :
    ((now - st.lastStabilizedTimeMillis) / countupAnimationMillis < 1 →
      getDisplayedDonationTotal st B now =
        (st, pyRound2 (st.lastStabilizedDonations +
          (B - st.lastStabilizedDonations) *
            ((now - st.lastStabilizedTimeMillis) / countupAnimationMillis)))) ∧
    (1 ≤ (now - st.lastStabilizedTimeMillis) / countupAnimationMillis →
      getDisplayedDonationTotal st B now =
        ({ lastStabilizedDonations := B, lastStabilizedTimeMillis := now }, B)) ∧
    (∀ now', getDisplayedDonationTotal ⟨B, now⟩ B now' = (⟨B, now'⟩, B)) := by
  refine ⟨fun hin => ?_, fun hend => ?_, fun now' => ?_⟩
  · simp only [getDisplayedDonationTotal, if_neg hne, if_neg (not_le.mpr hin)]
  · simp only [getDisplayedDonationTotal, if_neg hne, if_pos hend]
  · simp [getDisplayedDonationTotal]

/-- Witness for claim C8, at the spec's own numbers: stabilized at
100.00, target 150.00, sampled at the 0.5-second midpoint the display
reads 125.00. -/
theorem donation_countup_witness :
    getDisplayedDonationTotal ⟨100, 0⟩ 150 500 = (⟨100, 0⟩, 125) := by
  have h := (donation_countup_correct ⟨100, 0⟩ 150 500 (by norm_num)).1 (by
    norm_num [countupAnimationMillis])
  rw [h]
  norm_num [countupAnimationMillis, pyRound2, pyRoundInt]

/-- Claim C9: the `_SettingNode` save window.  A select press outside
the window persists the highlighted option's value and starts the
window at the press time `s`; every button input strictly inside the
window (`t < s + 1000`) leaves the node unchanged — no pop, no index
change, no further save — and the display shows "Saved!" in place of
the option label; at or after the end of the window the saved display
ends, the option label is shown again, and buttons are handled again
(a back press pops). -/
theorem settingNode_save_window (n : SettingNode) (bSave : ButtonData) (s : ℚ)
    (hnotsaved : n.isDisplayingSaved s = false) (hback : bSave.back = false)
    (hsel : bSave.select = true) :
    SettingNode.handleButtons n bSave s =
      ({ n with saveTimeMillis := s }, MenuReturnType.stayHere,
        some (optionAt n.options n.currentIndex).2) ∧
    (∀ (b : ButtonData) (t : ℚ), t < s + saveDisplayMillis →
      SettingNode.handleButtons { n with saveTimeMillis := s } b t =
        ({ n with saveTimeMillis := s }, MenuReturnType.stayHere, none) ∧
      SettingNode.getCurrentDisplay { n with saveTimeMillis := s } t =
        (ljust16 n.title, "     Saved!     ")) ∧
    (∀ t : ℚ, s + saveDisplayMillis ≤ t →
      SettingNode.isDisplayingSaved { n with saveTimeMillis := s } t = false ∧
      SettingNode.getCurrentDisplay { n with saveTimeMillis := s } t =
        (ljust16 n.title, rjust16 (optionAt n.options n.currentIndex).1) ∧
      (∀ b : ButtonData, b.back = true →
        SettingNode.handleButtons { n with saveTimeMillis := s } b t =
          ({ n with saveTimeMillis := s }, MenuReturnType.popStack, none))) := by
  have hsaved : ∀ t : ℚ, t < s + saveDisplayMillis →
      SettingNode.isDisplayingSaved { n with saveTimeMillis := s } t = true := by
    intro t ht
    simp [SettingNode.isDisplayingSaved, ht]
  have hnotsaved' : ∀ t : ℚ, s + saveDisplayMillis ≤ t →
      SettingNode.isDisplayingSaved { n with saveTimeMillis := s } t = false := by
    intro t ht
    simp [SettingNode.isDisplayingSaved]
    exact ht
  refine ⟨?_, fun b t ht => ⟨?_, ?_⟩, fun t ht => ⟨hnotsaved' t ht, ?_, fun b hb => ?_⟩⟩
  · simp [SettingNode.handleButtons, hnotsaved, hback, hsel]
  · simp [SettingNode.handleButtons, hsaved t ht]
  · simp [SettingNode.getCurrentDisplay, hsaved t ht]
  · simp [SettingNode.getCurrentDisplay, hnotsaved' t ht]
  · simp [SettingNode.handleButtons, hnotsaved' t ht, hb]

/-- Witness for claim C9: a concrete node saved at time 5000 ignores a
back press at time 5500 (inside the window) and would pop on the same
press at time 6000 (at the end of the window). -/
theorem settingNode_save_window_witness :
    SettingNode.handleButtons
        ⟨"LCD Color", [("Current Shift", 0), ("Dawn Guard", 1)], 0, 5000⟩
        ⟨true, false, false, false⟩ 5500 =
      (⟨"LCD Color", [("Current Shift", 0), ("Dawn Guard", 1)], 0, 5000⟩,
        MenuReturnType.stayHere, none) ∧
    SettingNode.handleButtons
        ⟨"LCD Color", [("Current Shift", 0), ("Dawn Guard", 1)], 0, 5000⟩
        ⟨true, false, false, false⟩ 6000 =
      (⟨"LCD Color", [("Current Shift", 0), ("Dawn Guard", 1)], 0, 5000⟩,
        MenuReturnType.popStack, none) := by
  have h := settingNode_save_window
    ⟨"LCD Color", [("Current Shift", 0), ("Dawn Guard", 1)], 0, 0⟩
    ⟨false, false, false, true⟩ 5000
    (by norm_num [SettingNode.isDisplayingSaved, saveDisplayMillis]) rfl rfl
  exact ⟨(h.2.1 ⟨true, false, false, false⟩ 5500 (by norm_num [saveDisplayMillis])).1,
    (h.2.2 6000 (by norm_num [saveDisplayMillis])).2.2 ⟨true, false, false, false⟩ rfl⟩

theorem durationsSum_take (frames : List Frame) (i : Nat) :
    durationsSum (frames.take i) = ((frames.map fun f => f.1).take i).sum := by
  rw [durationsSum, List.map_take]

theorem tsAt_step (frames : List Frame) (t : ℚ) (i : Nat)
    (hi : i < frames.length) :
    tsAt frames t (i + 1) = tsAt frames t i + (frames.getD i default).1 := by
  have hlen : i < (frames.map fun f => f.1).length := by simpa using hi
  have hsum := List.sum_take_succ (frames.map fun f => f.1) i hlen
  rw [List.getElem_map] at hsum
  simp only [tsAt, durationsSum_take, hsum]
  rw [List.getD_eq_getElem frames default hi]
  ring

/-- Claim C5 (amended): for every frame list and start time `t`, a
successful `_prepare_animation` returns a schedule of exactly
`len(list) + 1` entries, where entry `i` carries timestamp `t` plus the
sum of the first `i` durations, only the trailing sentinel has null
lines (the real entries carry the frames' non-null lines), the sentinel
carries timestamp `t` plus the sum of ALL durations — the cumulative
end time, NOT the last real frame's timestamp — and the timestamps are
non-decreasing when the durations are non-negative; preparation fails
with `ValueError` exactly when some frame has a null line. -/
theorem prepareAnimation_correct (frames : List Frame) (t : ℚ) :
    (prepareAnimation frames t = Except.error () ↔
      ∃ f ∈ frames, f.2.1 = none ∨ f.2.2 = none) ∧
    (∀ sched, prepareAnimation frames t = Except.ok sched →
      sched.length = frames.length + 1 ∧
      (∀ i, i ≤ frames.length → (sched.getD i default).1 = tsAt frames t i) ∧
      (∀ i, i < frames.length →
        (sched.getD i default).2 = (frames.getD i default).2 ∧
        (sched.getD i default).2.1 ≠ none ∧
        (sched.getD i default).2.2 ≠ none) ∧
      sched.getD frames.length default = (t + durationsSum frames, none, none) ∧
      ((∀ f ∈ frames, 0 ≤ f.1) → ∀ i, i + 1 ≤ frames.length →
        (sched.getD i default).1 ≤ (sched.getD (i + 1) default).1)) := by
  constructor
  · exact prepareAnimationFrom_error_iff frames t
  · intro sched hok
    obtain ⟨hlen, hts, hlines, hlast, hnn⟩ :=
      prepareAnimationFrom_ok_spec frames t sched hok
    refine ⟨hlen, hts, ?_, ?_, ?_⟩
    · intro i hi
      have h1 := hlines i hi
      have h2 := hnn i hi
      exact ⟨h1, by rw [h1]; exact h2.1, by rw [h1]; exact h2.2⟩
    · have he : sched.getD frames.length default =
          ((sched.getD frames.length default).1,
            (sched.getD frames.length default).2) := rfl
      rw [he, hts frames.length (Nat.le_refl _), hlast, tsAt_full]
    · intro hpos i hi
      rw [hts i (by omega), hts (i + 1) hi, tsAt_step frames t i (by omega)]
      have hmem : frames.getD i default ∈ frames := by
        rw [List.getD_eq_getElem frames default (by omega)]
        exact List.getElem_mem _
      have := hpos _ hmem
      linarith

/-- Claim C5 counterexample: preparing the single frame `(10, "a", "b")`
at start time 0 yields the real entry at timestamp 0 and the sentinel
at timestamp 10, so the sentinel does NOT carry the same timestamp as
the last real frame (10 ≠ 0); it carries the frame's timestamp plus its
duration. -/
theorem prepareAnimation_sentinel_counterexample :
    prepareAnimation [((10 : ℚ), some "a", some "b")] 0 =
      Except.ok [((0 : ℚ), some "a", some "b"), ((10 : ℚ), none, none)] ∧
    ¬ ((10 : ℚ) = (0 : ℚ)) := by
  constructor
  · have h0 : prepareAnimation [((10 : ℚ), some "a", some "b")] 0 =
        Except.ok [((0 : ℚ), some "a", some "b"), ((0 : ℚ) + 10, none, none)] := rfl
    rw [h0]
    norm_num
  · norm_num

/-- Witness for claim C5: the amended theorem applied to the concrete
one-frame list, giving the two-entry schedule length. -/
theorem prepareAnimation_correct_witness :
    ([((0 : ℚ), some "a", some "b"), ((0 : ℚ) + 10, none, none)] : List Entry).length =
      ([((10 : ℚ), some "a", some "b")] : List Frame).length + 1 :=
  ((prepareAnimation_correct [((10 : ℚ), some "a", some "b")] 0).2
    [((0 : ℚ), some "a", some "b"), ((0 : ℚ) + 10, none, none)] rfl).1

/-- The popping loop pops exactly the leading entries whose SUCCESSOR's
timestamp is strictly below `now`, stopping at the first entry whose
successor (if any) is not yet due; the `current_frame` it leaves behind
is the last popped entry when pops occurred, the initial
`currentFrame` argument otherwise. -/
theorem animLoop_spec (currentFrame : Entry) (d : List Entry) (now : ℚ)
    (hne : d ≠ []) :
    ∃ k, k + 1 ≤ d.length ∧
      animLoop currentFrame d now =
        ((if k = 0 then currentFrame else d.getD (k - 1) default),
          d.drop k) ∧
      (∀ j, j < k → (d.getD (j + 1) default).1 < now) ∧
      (k + 1 < d.length → ¬ (d.getD (k + 1) default).1 < now) := by
  induction d generalizing currentFrame with
  | nil => exact absurd rfl hne
  | cons e0 rest ih =>
      cases rest with
      | nil =>
          refine ⟨0, by simp, rfl, ?_, ?_⟩
          · intro j hj
            exact absurd hj (Nat.not_lt_zero j)
          · intro h
            simp at h
      | cons e1 rest2 =>
          by_cases hlt : e1.1 < now
          · obtain ⟨k, hk1, hk2, hk3, hk4⟩ := ih e0 (by simp)
            refine ⟨k + 1, by simpa using hk1, ?_, ?_, ?_⟩
            · rw [show animLoop currentFrame (e0 :: e1 :: rest2) now =
                  animLoop e0 (e1 :: rest2) now by simp [animLoop, hlt], hk2]
              have hcf : (if k = 0 then e0 else (e1 :: rest2).getD (k - 1) default) =
                  (e0 :: e1 :: rest2).getD (k + 1 - 1) default := by
                cases k with
                | zero => rfl
                | succ k' =>
                    simp only [Nat.succ_ne_zero, if_neg, if_false]
                    rfl
              rw [hcf]
              simp
            · intro j hj
              cases j with
              | zero => exact hlt
              | succ j' => exact hk3 j' (by omega)
            · intro h
              exact hk4 (by simpa using h)
          · refine ⟨0, by simp, ?_, ?_, ?_⟩
            · simp [animLoop, hlt]
            · intro j hj
              exact absurd hj (Nat.not_lt_zero j)
            · intro _
              exact hlt

/-- `animLoop_spec` specialised to the way `_do_animation_frame` calls
the loop: `current_frame` starts as the deque's head, so the final
`current_frame` is uniformly the entry at index `k - 1` (`Nat`
subtraction: the head itself when no pop occurred). -/
theorem animLoop_full_spec (e0 : Entry) (rest : List Entry) (now : ℚ) :
    ∃ k, k + 1 ≤ (e0 :: rest).length ∧
      animLoop e0 (e0 :: rest) now =
        ((e0 :: rest).getD (k - 1) default, (e0 :: rest).drop k) ∧
      (∀ j, j < k → ((e0 :: rest).getD (j + 1) default).1 < now) ∧
      (k + 1 < (e0 :: rest).length →
        ¬ ((e0 :: rest).getD (k + 1) default).1 < now) := by
  obtain ⟨k, hk1, hk2, hk3, hk4⟩ := animLoop_spec e0 (e0 :: rest) now (by simp)
  refine ⟨k, hk1, ?_, hk3, hk4⟩
  rw [hk2]
  cases k with
  | zero => rfl
  | succ k' => simp

theorem getD_drop_entry (l : List Entry) (k j : Nat) :
    (l.drop k).getD j default = l.getD (k + j) default := by
  simp [List.getD, List.getElem?_drop]

/-- Claim C2 (amended): on a schedule prepared from a non-empty frame
list, `_do_animation_frame` raises nothing; it pops exactly the leading
entries whose NEXT entry's timestamp is STRICTLY BELOW `now` (not `≤`),
stopping at the first entry whose successor is not yet strictly due;
it displays exactly one frame per call — the lines of `current_frame`,
which is the LAST POPPED entry (the predecessor, at index `k - 1`, of
the entry current at `now`) when `k ≥ 1` entries were popped, and the
head when nothing was popped — never an intermediate skipped frame;
and such a call always returns still-running: `current_frame` can
never be the trailing sentinel here, so finished is only ever reported
by a later call that already finds the sentinel alone in the deque
(see the C6 theorem), and hence never at a time strictly before the
cumulative end time. -/
theorem advance_strict_correct (frames : List Frame) (t now : ℚ)
    (sched : List Entry) (hfne : frames ≠ [])
    (hok : prepareAnimation frames t = Except.ok sched) :
    ∃ res : AdvanceResult, ∃ k : Nat,
      doAnimationFrameBase sched now = some res ∧
      k + 1 ≤ sched.length ∧
      res.deque = sched.drop k ∧
      (∀ j, j < k → (sched.getD (j + 1) default).1 < now) ∧
      (k + 1 < sched.length → ¬ (sched.getD (k + 1) default).1 < now) ∧
      k - 1 < frames.length ∧
      (∃ s1 s2 : String,
        (sched.getD (k - 1) default).2 = (some s1, some s2) ∧
        res.displayed = some (s1, s2)) ∧
      res.finished = false := by
  obtain ⟨hlen, hts, hlines, hlast, hnn⟩ :=
    prepareAnimationFrom_ok_spec frames t sched hok
  have hsne : sched ≠ [] := by
    intro he
    rw [he] at hlen
    simp at hlen
  obtain ⟨e0, rest, rfl⟩ : ∃ e0 rest, sched = e0 :: rest := by
    cases sched with
    | nil => exact absurd rfl hsne
    | cons e0 rest => exact ⟨e0, rest, rfl⟩
  obtain ⟨k, hk1, hrun, hkpop, hkstop⟩ := animLoop_full_spec e0 rest now
  have hfpos : 0 < frames.length := List.length_pos.mpr hfne
  have hcfidx : k - 1 < frames.length := by
    rw [hlen] at hk1
    omega
  have h1 : ((e0 :: rest).getD (k - 1) default).2.1 ≠ none := by
    rw [hlines (k - 1) hcfidx]
    exact (hnn (k - 1) hcfidx).1
  have h2 : ((e0 :: rest).getD (k - 1) default).2.2 ≠ none := by
    rw [hlines (k - 1) hcfidx]
    exact (hnn (k - 1) hcfidx).2
  obtain ⟨s1, hs1⟩ := Option.ne_none_iff_exists'.mp h1
  obtain ⟨s2, hs2⟩ := Option.ne_none_iff_exists'.mp h2
  have hcfeq : (e0 :: rest).getD (k - 1) default =
      (((e0 :: rest).getD (k - 1) default).1, some s1, some s2) := by
    have he : (e0 :: rest).getD (k - 1) default =
        (((e0 :: rest).getD (k - 1) default).1,
          ((e0 :: rest).getD (k - 1) default).2.1,
          ((e0 :: rest).getD (k - 1) default).2.2) := rfl
    rw [he, hs1, hs2]
  obtain ⟨y, tail, hdt⟩ : ∃ y tail, (e0 :: rest).drop k = y :: tail := by
    cases hd : (e0 :: rest).drop k with
    | nil =>
        exfalso
        have : ((e0 :: rest).drop k).length = 0 := by rw [hd]; rfl
        rw [List.length_drop] at this
        omega
    | cons y tail => exact ⟨y, tail, rfl⟩
  have hcore : doAnimationFrameCore ((e0 :: rest).getD (k - 1) default)
      ((e0 :: rest).drop k) =
      ⟨(e0 :: rest).drop k, some (s1, s2), false⟩ := by
    rw [hcfeq, hdt]
    rfl
  refine ⟨⟨(e0 :: rest).drop k, some (s1, s2), false⟩, k, ?_, hk1, rfl,
    hkpop, hkstop, hcfidx, ⟨s1, s2, by rw [hcfeq], rfl⟩, rfl⟩
  show some (doAnimationFrameCore (animLoop e0 (e0 :: rest) now).1
      (animLoop e0 (e0 :: rest) now).2) = _
  rw [hrun]
  exact congrArg some hcore

/-- Claim C2 counterexample: at `now = 10` on the prepared schedule
`[(0, "a", "b"), (10, "c", "d"), (20, none, none)]`, the leading
entry's NEXT entry has timestamp `10 ≤ now`, so the claim (with its
`≤`) requires the leading entry popped and `("c", "d")` displayed; the
code's strict `<` keeps the leading entry and displays `("a", "b")`. -/
theorem advance_le_counterexample :
    doAnimationFrameBase
        [((0 : ℚ), some "a", some "b"), ((10 : ℚ), some "c", some "d"),
          ((20 : ℚ), none, none)] 10 =
      some ⟨[((0 : ℚ), some "a", some "b"), ((10 : ℚ), some "c", some "d"),
          ((20 : ℚ), none, none)], some ("a", "b"), false⟩ ∧
    ((10 : ℚ) ≤ 10) := by
  constructor
  · norm_num [doAnimationFrameBase, doAnimationFrameCore, animLoop]
  · norm_num

/-- Witness for claim C2: the amended theorem applied to the one-frame
schedule, sampled mid-animation: `advance` raises no exception. -/
theorem advance_strict_correct_witness :
    doAnimationFrameBase
        [((0 : ℚ), some "a", some "b"), ((0 : ℚ) + 10, none, none)] 5 ≠ none := by
  obtain ⟨res, k, hres, -⟩ :=
    advance_strict_correct [((10 : ℚ), some "a", some "b")]
      0 5 [((0 : ℚ), some "a", some "b"), ((0 : ℚ) + 10, none, none)]
      (by simp) rfl
  rw [hres]
  simp

theorem getD_dropLast_entry (l : List Entry) (j : Nat) (h : j < l.length - 1) :
    l.dropLast.getD j default = l.getD j default := by
  have h2 : j < l.dropLast.length := by
    simp only [List.length_dropLast]
    omega
  rw [List.getD_eq_getElem l.dropLast default h2, List.getElem_dropLast,
    List.getD_eq_getElem l default (by omega)]

/-- On a deque holding only the null-lines sentinel, both versions of
`_do_animation_frame` return finished, display nothing and leave the
deque as it is. -/
theorem advance_sentinel_only (ts now : ℚ) :
    doAnimationFrameBase [(ts, none, none)] now =
      some ⟨[(ts, none, none)], none, true⟩ ∧
    doAnimationFrameSimple [(ts, none, none)] now =
      ⟨[(ts, none, none)], none, true⟩ :=
  ⟨rfl, rfl⟩

/-- Claim C6 (amended): `SimpleAnimationView._do_animation_frame` on the
entirely empty deque safely returns finished with no display; on a
deque reduced to the sentinel alone, BOTH versions return finished with
no display and leave the deque unchanged; and on any well-formed
prepared schedule, a finished report from `_do_animation_frame`
(BaseView version) can only happen when the deque already WAS the
sentinel alone at call entry (`current_frame` can never become the
sentinel through the popping loop, which always leaves it one entry
behind the head): the call displays nothing, leaves the deque
unchanged, and every further call keeps returning finished with no
display and no exception.  (What the original claim adds — that the
BaseView version is also safe on the entirely EMPTY deque — is false:
see the counterexample.) -/
theorem advance_past_finished_idempotent :
    (∀ now : ℚ, doAnimationFrameSimple [] now = ⟨[], none, true⟩) ∧
    (∀ ts now : ℚ,
      doAnimationFrameBase [(ts, none, none)] now =
        some ⟨[(ts, none, none)], none, true⟩ ∧
      doAnimationFrameSimple [(ts, none, none)] now =
        ⟨[(ts, none, none)], none, true⟩) ∧
    (∀ (sched : List Entry) (now : ℚ) (res : AdvanceResult),
      WellFormedSchedule sched →
      doAnimationFrameBase sched now = some res →
      res.finished = true →
      res.displayed = none ∧
      (∃ ts : ℚ, sched = [(ts, none, none)]) ∧
      res.deque = sched ∧
      (∀ now' : ℚ, doAnimationFrameBase res.deque now' =
        some ⟨res.deque, none, true⟩)) := by
  refine ⟨fun _ => rfl, advance_sentinel_only, ?_⟩
  rintro sched now res ⟨hne, hdl, T, hlastS⟩ hbase hfin
  obtain ⟨e0, rest, rfl⟩ : ∃ e0 rest, sched = e0 :: rest := by
    cases sched with
    | nil => exact absurd rfl hne
    | cons e0 rest => exact ⟨e0, rest, rfl⟩
  obtain ⟨k, hk1, hrun, -, -⟩ := animLoop_full_spec e0 rest now
  have hbase2 : doAnimationFrameBase (e0 :: rest) now =
      some (doAnimationFrameCore (animLoop e0 (e0 :: rest) now).1
        (animLoop e0 (e0 :: rest) now).2) := rfl
  rw [hbase2, Option.some_inj, hrun] at hbase
  have hbase3 : doAnimationFrameCore ((e0 :: rest).getD (k - 1) default)
      ((e0 :: rest).drop k) = res := hbase
  by_cases hrest : rest = []
  · -- the deque was the sentinel alone at call entry
    subst hrest
    have he0 : e0 = (T, none, none) := by
      have h := hlastS
      simp only [List.getLast?, Option.some_inj] at h
      exact h
    subst he0
    have hk0 : k = 0 := by
      simp only [List.length_cons, List.length_nil] at hk1
      omega
    subst hk0
    have hres : res = ⟨[(T, none, none)], none, true⟩ := by
      rw [← hbase3]
      rfl
    refine ⟨by rw [hres], ⟨T, rfl⟩, by rw [hres], ?_⟩
    intro now'
    rw [hres]
    exact (advance_sentinel_only T now').1
  · -- at least one real frame ahead of the sentinel: the call cannot
    -- have reported finished, since current_frame is a real frame
    exfalso
    have hrpos : 0 < rest.length := List.length_pos.mpr hrest
    have hk1' : k + 1 ≤ rest.length + 1 := by
      simpa using hk1
    have hidx : k - 1 < (e0 :: rest).length - 1 := by
      simp only [List.length_cons]
      omega
    have hdlget : (e0 :: rest).dropLast.getD (k - 1) default =
        (e0 :: rest).getD (k - 1) default :=
      getD_dropLast_entry _ _ hidx
    have hmem : (e0 :: rest).getD (k - 1) default ∈ (e0 :: rest).dropLast := by
      rw [← hdlget, List.getD_eq_getElem (e0 :: rest).dropLast default
        (by simp only [List.length_dropLast]; simp only [List.length_cons] at hidx ⊢; omega)]
      exact List.getElem_mem _
    obtain ⟨hna, hnb⟩ := hdl _ hmem
    obtain ⟨s1, hs1⟩ := Option.ne_none_iff_exists'.mp hna
    obtain ⟨s2, hs2⟩ := Option.ne_none_iff_exists'.mp hnb
    have hcfeq : (e0 :: rest).getD (k - 1) default =
        (((e0 :: rest).getD (k - 1) default).1, some s1, some s2) := by
      have he : (e0 :: rest).getD (k - 1) default =
          (((e0 :: rest).getD (k - 1) default).1,
            ((e0 :: rest).getD (k - 1) default).2.1,
            ((e0 :: rest).getD (k - 1) default).2.2) := rfl
      rw [he, hs1, hs2]
    obtain ⟨y, tail, hdt⟩ : ∃ y tail, (e0 :: rest).drop k = y :: tail := by
      cases hd : (e0 :: rest).drop k with
      | nil =>
          exfalso
          have : ((e0 :: rest).drop k).length = 0 := by rw [hd]; rfl
          rw [List.length_drop] at this
          omega
      | cons y tail => exact ⟨y, tail, rfl⟩
    have hcore : doAnimationFrameCore ((e0 :: rest).getD (k - 1) default)
        ((e0 :: rest).drop k) =
        ⟨(e0 :: rest).drop k, some (s1, s2), false⟩ := by
      rw [hcfeq, hdt]
      rfl
    rw [hcore] at hbase3
    rw [← hbase3] at hfin
    exact absurd hfin (by simp)

/-- Claim C6 counterexample: `BaseView._do_animation_frame` on the
entirely empty deque executes `current_frame = anim_deque[0]` before
any length check and raises `IndexError` (the `none` result) instead of
returning finished. -/
theorem advance_empty_counterexample : doAnimationFrameBase [] 0 = none := rfl

/-- Witness for claim C6: after a finished call on the sentinel-only
schedule, a further call at a different time still returns finished
with no display. -/
theorem advance_past_finished_witness :
    doAnimationFrameBase [((5 : ℚ), none, none)] 7 =
      some ⟨[((5 : ℚ), none, none)], none, true⟩ :=
  (advance_past_finished_idempotent.2.2 [((5 : ℚ), none, none)] 3
    ⟨[((5 : ℚ), none, none)], none, true⟩
    ⟨by simp, by simp, ⟨5, rfl⟩⟩ rfl rfl).2.2.2 7

/-! ### Verification of the CPython heapq transcription -/

theorem priAt_set_eq (l : List PyView) (v : PyView) (j : Nat) (h : j < l.length) :
    priAt (l.set j v) j = v.pri := by
  simp [priAt, List.getD, List.getElem?_set_eq_of_lt v h]

theorem priAt_set_ne (l : List PyView) (v : PyView) (i j : Nat) (h : i ≠ j) :
    priAt (l.set j v) i = priAt l i := by
  simp [priAt, List.getD, List.getElem?_set_ne (Ne.symm h)]

theorem priAt_append_left (l : List PyView) (v : PyView) (j : Nat)
    (h : j < l.length) : priAt (l ++ [v]) j = priAt l j := by
  simp [priAt, List.getD, List.getElem?_append_left h]

theorem getD_dropLast' {α : Type} (d : α) (l : List α) (j : Nat)
    (h : j < l.length - 1) : l.dropLast.getD j d = l.getD j d := by
  have h2 : j < l.dropLast.length := by
    simp only [List.length_dropLast]
    omega
  rw [List.getD_eq_getElem l.dropLast d h2, List.getElem_dropLast,
    List.getD_eq_getElem l d (by omega)]

/-- Placing `x` into the hole at `pos` yields a heap, provided the rest
of the array is heap-ordered away from the hole, `x` is at most the
hole's children, and the hole's parent is at most `x`. -/
theorem heapInvariant_set_hole (l : List PyView) (x : PyView) (pos : Nat)
    (hlen : pos < l.length)
    (h2 : ∀ i, 0 < i → i < l.length → i ≠ pos → (i - 1) / 2 ≠ pos →
      priAt l ((i - 1) / 2) ≤ priAt l i)
    (h3 : ∀ i, 0 < i → i < l.length → (i - 1) / 2 = pos → x.pri ≤ priAt l i)
    (hpar : 0 < pos → priAt l ((pos - 1) / 2) ≤ x.pri) :
    HeapInvariant (l.set pos x) := by
  intro i hi0 hilen
  rw [List.length_set] at hilen
  by_cases hip : i = pos
  · subst hip
    have hparne : (i - 1) / 2 ≠ i := by omega
    rw [priAt_set_ne _ _ _ _ hparne, priAt_set_eq _ _ _ hlen]
    exact hpar hi0
  · by_cases hpp : (i - 1) / 2 = pos
    · rw [priAt_set_ne _ _ _ _ hip, hpp, priAt_set_eq _ _ _ hlen]
      exact h3 i hi0 hilen hpp
    · rw [priAt_set_ne _ _ _ _ hip, priAt_set_ne _ _ _ _ hpp]
      exact h2 i hi0 hilen hip hpp

/-- The `_siftdown` loop restores the heap invariant: starting from an
array whose only disorder involves the hole at `pos` (with `x` destined
for the hole), the loop produces a heap of the same length. -/
theorem siftdownLoop_invariant (fuel : Nat) :
    ∀ (l : List PyView) (x : PyView) (pos : Nat),
      pos ≤ fuel →
      pos < l.length →
      (∀ i, 0 < i → i < l.length → i ≠ pos → (i - 1) / 2 ≠ pos →
        priAt l ((i - 1) / 2) ≤ priAt l i) →
      (∀ i, 0 < i → i < l.length → (i - 1) / 2 = pos → x.pri ≤ priAt l i) →
      (∀ i, 0 < i → i < l.length → (i - 1) / 2 = pos → 0 < pos →
        priAt l ((pos - 1) / 2) ≤ priAt l i) →
      HeapInvariant (siftdownLoop fuel l x 0 pos) ∧
      (siftdownLoop fuel l x 0 pos).length = l.length := by
  induction fuel with
  | zero =>
      intro l x pos hfuel hlen h2 h3 _h4
      have hpos0 : pos = 0 := Nat.le_zero.mp hfuel
      subst hpos0
      rw [siftdownLoop]
      exact ⟨heapInvariant_set_hole l x 0 hlen h2 h3 (by omega),
        List.length_set l 0 x⟩
  | succ fuel' ih =>
      intro l x pos hfuel hlen h2 h3 h4
      rw [siftdownLoop]
      by_cases hpos : 0 < pos
      · simp only [if_pos hpos]
        by_cases hx : x.pri < (l.getD ((pos - 1) / 2) default).pri
        · simp only [if_pos hx]
          -- move the parent down into the hole and recurse at the parent
          set parentpos := (pos - 1) / 2 with hpp
          have hpplt : parentpos < pos := by omega
          have hpplen : parentpos < (l.set pos (l.getD parentpos default)).length := by
            rw [List.length_set]
            omega
          have hres := ih (l.set pos (l.getD parentpos default)) x parentpos
            (by omega) hpplen ?h2 ?h3 ?h4
          case h2 =>
            intro i hi0 hilen hine hipne
            rw [List.length_set] at hilen
            have hipos : i ≠ pos := by omega
            by_cases hpip : (i - 1) / 2 = pos
            · rw [priAt_set_ne _ _ _ _ hipos, hpip, priAt_set_eq _ _ _ hlen]
              have := h4 i hi0 hilen hpip hpos
              simpa [priAt, hpp] using this
            · rw [priAt_set_ne _ _ _ _ hipos, priAt_set_ne _ _ _ _ hpip]
              exact h2 i hi0 hilen hipos hpip
          case h3 =>
            intro i hi0 hilen hpipp
            rw [List.length_set] at hilen
            by_cases hipos : i = pos
            · subst hipos
              rw [priAt_set_eq _ _ _ hlen]
              exact le_of_lt hx
            · rw [priAt_set_ne _ _ _ _ hipos]
              have hstep := h2 i hi0 hilen hipos (by omega)
              rw [hpipp] at hstep
              have hxle : x.pri ≤ priAt l parentpos := le_of_lt hx
              exact le_trans hxle hstep
          case h4 =>
            intro i hi0 hilen hpipp hppos
            rw [List.length_set] at hilen
            have hgpne : (parentpos - 1) / 2 ≠ pos := by omega
            rw [priAt_set_ne _ _ _ _ hgpne]
            have hgp : priAt l ((parentpos - 1) / 2) ≤ priAt l parentpos :=
              h2 parentpos hppos (by omega) (by omega) (by omega)
            by_cases hipos : i = pos
            · subst hipos
              rw [priAt_set_eq _ _ _ hlen]
              exact hgp
            · rw [priAt_set_ne _ _ _ _ hipos]
              have := h2 i hi0 hilen hipos (by omega)
              rw [hpipp] at this
              exact le_trans hgp this
          refine ⟨hres.1, ?_⟩
          rw [hres.2, List.length_set]
        · simp only [if_neg hx]
          refine ⟨heapInvariant_set_hole l x pos hlen h2 h3 ?_,
            List.length_set l pos x⟩
          intro _
          exact le_of_not_lt hx
      · simp only [if_neg hpos]
        have hpos0 : pos = 0 := by omega
        subst hpos0
        exact ⟨heapInvariant_set_hole l x 0 hlen h2 h3 (by omega),
          List.length_set l 0 x⟩

/-- The `_siftup` loop restores the heap invariant: starting from an
array whose only disorder involves the hole at `pos` (with `x` destined
for the hole), bubbling the smaller child up to a leaf and then sifting
`x` down produces a heap of the same length. -/
theorem siftupLoop_invariant (fuel : Nat) :
    ∀ (l : List PyView) (x : PyView) (endpos pos : Nat),
      endpos = l.length →
      l.length - pos ≤ fuel →
      pos < l.length →
      (∀ i, 0 < i → i < l.length → i ≠ pos → (i - 1) / 2 ≠ pos →
        priAt l ((i - 1) / 2) ≤ priAt l i) →
      (∀ i, 0 < i → i < l.length → (i - 1) / 2 = pos → 0 < pos →
        priAt l ((pos - 1) / 2) ≤ priAt l i) →
      HeapInvariant (siftupLoop fuel l x endpos 0 pos) ∧
      (siftupLoop fuel l x endpos 0 pos).length = l.length := by
  induction fuel with
  | zero =>
      intro l x endpos pos hend hfuel hlen _h2 _h4
      omega
  | succ fuel' ih =>
      intro l x endpos pos hend hfuel hlen h2 h4
      rw [siftupLoop]
      by_cases hc : 2 * pos + 1 < endpos
      · simp only [if_pos hc]
        -- a common argument for whichever child the loop selects
        have hmain : ∀ c : Nat, (c = 2 * pos + 1 ∨ c = 2 * pos + 2) →
            c < endpos →
            (∀ j, 0 < j → j < l.length → (j - 1) / 2 = pos → j ≠ c →
              priAt l c ≤ priAt l j) →
            HeapInvariant (siftupLoop fuel' (l.set pos (l.getD c default)) x
              endpos 0 c) ∧
            (siftupLoop fuel' (l.set pos (l.getD c default)) x
              endpos 0 c).length = l.length := by
          intro c hcform hcend hminc
          have hcchild : (c - 1) / 2 = pos := by omega
          have hposc : pos < c := by omega
          have hclen : c < l.length := by omega
          have hres := ih (l.set pos (l.getD c default)) x endpos c
            (by rw [List.length_set]; exact hend)
            (by rw [List.length_set]; omega)
            (by rw [List.length_set]; exact hclen) ?h2 ?h4
          case h2 =>
            intro i hi0 hilen hine hipne
            rw [List.length_set] at hilen
            by_cases hipos : i = pos
            · subst hipos
              have hppne : (i - 1) / 2 ≠ i := by omega
              rw [priAt_set_ne _ _ _ _ hppne, priAt_set_eq _ _ _ hlen]
              exact h4 c (by omega) hclen hcchild hi0
            · by_cases hpip : (i - 1) / 2 = pos
              · rw [priAt_set_ne _ _ _ _ hipos, hpip, priAt_set_eq _ _ _ hlen]
                exact hminc i hi0 hilen hpip hine
              · rw [priAt_set_ne _ _ _ _ hipos, priAt_set_ne _ _ _ _ hpip]
                exact h2 i hi0 hilen hipos hpip
          case h4 =>
            intro i hi0 hilen hpic hc0
            rw [List.length_set] at hilen
            have hipos : i ≠ pos := by omega
            rw [hcchild, priAt_set_ne _ _ _ _ hipos, priAt_set_eq _ _ _ hlen]
            have := h2 i hi0 hilen hipos (by omega)
            rw [hpic] at this
            exact this
          refine ⟨hres.1, ?_⟩
          rw [hres.2, List.length_set]
        split_ifs with hsel
        · -- the right child was selected: it is not above the left child
          refine hmain (2 * pos + 1 + 1) (by omega) hsel.1 ?_
          intro j hj0 hjlen hjp hjne
          have hj : j = 2 * pos + 1 := by omega
          subst hj
          exact le_of_not_lt hsel.2
        · -- the left child was selected: either there is no right child,
          -- or the left child is strictly below it
          refine hmain (2 * pos + 1) (by omega) hc ?_
          intro j hj0 hjlen hjp hjne
          have hj : j = 2 * pos + 1 + 1 := by omega
          subst hj
          rw [not_and_or, not_not] at hsel
          rcases hsel with hno | hlt
          · omega
          · exact le_of_lt hlt
      · simp only [if_neg hc]
        have hres := siftdownLoop_invariant pos (l.set pos x) x pos (Nat.le_refl _)
          (by rw [List.length_set]; exact hlen) ?h2 ?h3 ?h4
        case h2 =>
          intro i hi0 hilen hine hipne
          rw [List.length_set] at hilen
          rw [priAt_set_ne _ _ _ _ hine, priAt_set_ne _ _ _ _ hipne]
          exact h2 i hi0 hilen hine hipne
        case h3 =>
          intro i hi0 hilen hpi
          rw [List.length_set] at hilen
          omega
        case h4 =>
          intro i hi0 hilen hpi _
          rw [List.length_set] at hilen
          omega
        refine ⟨hres.1, ?_⟩
        rw [hres.2, List.length_set]

/-- `heappush` preserves the heap invariant. -/
theorem heappush_invariant (l : List PyView) (v : PyView)
    (h : HeapInvariant l) :
    HeapInvariant (heappush l v) ∧ (heappush l v).length = l.length + 1 := by
  unfold heappush siftdown
  have hget : (l ++ [v]).getD l.length default = v := by
    simp [List.getD]
  rw [hget]
  have hres := siftdownLoop_invariant l.length (l ++ [v]) v l.length
    (Nat.le_refl _) (by simp) ?h2 ?h3 ?h4
  case h2 =>
    intro i hi0 hilen hine _hipne
    simp only [List.length_append, List.length_cons, List.length_nil] at hilen
    have hilt : i < l.length := by omega
    rw [priAt_append_left _ _ _ hilt, priAt_append_left _ _ _ (by omega)]
    exact h i hi0 hilt
  case h3 =>
    intro i hi0 hilen hpi
    simp only [List.length_append, List.length_cons, List.length_nil] at hilen
    omega
  case h4 =>
    intro i hi0 hilen hpi _
    simp only [List.length_append, List.length_cons, List.length_nil] at hilen
    omega
  refine ⟨hres.1, ?_⟩
  rw [hres.2]
  simp

/-- `heappop` preserves the heap invariant, and the element it returns
is the one stored at the root. -/
theorem heappop_invariant (l : List PyView) (hinv : HeapInvariant l)
    (v : PyView) (l' : List PyView) (hp : heappop l = some (v, l')) :
    HeapInvariant l' ∧ v = l.getD 0 default := by
  unfold heappop at hp
  cases hl : l.getLast? with
  | none =>
      rw [hl] at hp
      exact absurd hp (by simp)
  | some lastelt =>
      rw [hl] at hp
      have hlne : l ≠ [] := by
        intro he
        rw [he] at hl
        simp at hl
      have hlsplit : l = l.dropLast ++ [lastelt] := by
        have hgl : l.getLast hlne = lastelt := by
          have := List.getLast?_eq_getLast l hlne
          rw [hl] at this
          exact (Option.some_inj.mp this).symm
        conv_lhs => rw [← List.dropLast_append_getLast hlne]
        rw [hgl]
      cases hdl : l.dropLast with
      | nil =>
          rw [hdl] at hp
          simp only [Option.some_inj, Prod.mk.injEq] at hp
          obtain ⟨hv, hl'⟩ := hp
          subst hv
          subst hl'
          constructor
          · intro i hi0 hilen
            simp at hilen
          · rw [hlsplit, hdl]
            rfl
      | cons r0 rest =>
          rw [hdl] at hp
          simp only [Option.some_inj, Prod.mk.injEq] at hp
          obtain ⟨hv, hl'⟩ := hp
          subst hv
          have hlen : l.length = rest.length + 2 := by
            rw [hlsplit, hdl]
            simp
          constructor
          · rw [← hl']
            unfold siftup
            have hres := siftupLoop_invariant
              ((r0 :: rest).set 0 lastelt).length
              ((r0 :: rest).set 0 lastelt)
              (((r0 :: rest).set 0 lastelt).getD 0 default)
              ((r0 :: rest).set 0 lastelt).length 0
              rfl (Nat.le_refl _) (by simp) ?h2 ?h4
            case h2 =>
              intro i hi0 hilen hine _hipne
              rw [List.length_set, List.length_cons] at hilen
              have hidl : i < l.length - 1 := by omega
              have hpdl : (i - 1) / 2 < l.length - 1 := by omega
              have heqi : priAt ((r0 :: rest).set 0 lastelt) i = priAt l i := by
                rw [priAt_set_ne _ _ _ _ hine, ← hdl]
                show (l.dropLast.getD i default).pri = (l.getD i default).pri
                rw [getD_dropLast' default l i hidl]
              have heqp : priAt ((r0 :: rest).set 0 lastelt) ((i - 1) / 2) =
                  priAt l ((i - 1) / 2) := by
                by_cases hp0 : (i - 1) / 2 = 0
                · omega
                · rw [priAt_set_ne _ _ _ _ hp0, ← hdl]
                  show (l.dropLast.getD _ default).pri = (l.getD _ default).pri
                  rw [getD_dropLast' default l _ hpdl]
              rw [heqi, heqp]
              exact hinv i hi0 (by omega)
            case h4 =>
              intro i hi0 hilen hpi hpos0
              omega
            exact hres.1
          · rw [hlsplit, hdl]
            rfl

/-- In a heap-ordered array the root is a minimal element. -/
theorem heapInvariant_root_le (l : List PyView) (h : HeapInvariant l) :
    ∀ i, i < l.length → priAt l 0 ≤ priAt l i := by
  intro i
  induction i using Nat.strong_induction_on with
  | _ i ih =>
      intro hi
      rcases Nat.eq_zero_or_pos i with h0 | hpos
      · subst h0
        exact le_refl _
      · calc priAt l 0 ≤ priAt l ((i - 1) / 2) := ih _ (by omega) (by omega)
          _ ≤ priAt l i := h i hpos hi

/-- Every view queue the main loop can reach by pushes and pops from
the empty list is heap-ordered. -/
theorem runQueueOps_invariant (ops : List QueueOp) :
    HeapInvariant (runQueueOps ops) := by
  have hgen : ∀ l, HeapInvariant l →
      HeapInvariant (List.foldl applyQueueOp l ops) := by
    induction ops with
    | nil => intro l hl; exact hl
    | cons op rest ih =>
        intro l hl
        apply ih
        cases op with
        | push v => exact (heappush_invariant l v hl).1
        | pop =>
            show HeapInvariant (applyQueueOp l QueueOp.pop)
            unfold applyQueueOp
            cases hp : heappop l with
            | none => exact hl
            | some p => exact (heappop_invariant l hl p.1 p.2 (by rw [hp])).1
  refine hgen [] ?_
  intro i hi0 hilen
  simp at hilen

/-- Claim C3 (amended): the view queue does NOT guarantee FIFO order
among equal priorities (see the counterexample); what `heapq` does
guarantee, for every sequence of pushes and pops the main loop can
perform starting from its empty queue, is that the view `heappop`
services has minimal priority among all queued views. -/
theorem viewQueue_pop_min (ops : List QueueOp) (v : PyView)
    (rest : List PyView)
    (hp : heappop (runQueueOps ops) = some (v, rest)) :
    ∀ w ∈ runQueueOps ops, v.pri ≤ w.pri := by
  intro w hw
  have hinv := runQueueOps_invariant ops
  obtain ⟨-, hv⟩ := heappop_invariant _ hinv v rest hp
  obtain ⟨⟨i, hi⟩, he⟩ := List.mem_iff_get.mp hw
  have hroot := heapInvariant_root_le _ hinv i hi
  have hvpri : v.pri = priAt (runQueueOps ops) 0 := by
    rw [hv]
    rfl
  have hwpri : w.pri = priAt (runQueueOps ops) i := by
    rw [← he]
    simp only [priAt, List.getD_eq_getElem _ default hi]
    rfl
  rw [hvpri, hwpri]
  exact hroot

/-- Claim C3 counterexample: push four views of equal priority 5 with
tags 0, 1, 2, 3 in that order (tags record push order only; `__lt__`
compares priorities alone).  Popping the first view (tag 0) leaves the
heap `[tag 2, tag 1, tag 3]`, so the NEXT pop services tag 2 — pushed
AFTER tag 1 — refuting first-in-first-chosen among equal priorities. -/
theorem viewQueue_fifo_counterexample :
    runQueueOps [QueueOp.push ⟨5, 0⟩, QueueOp.push ⟨5, 1⟩,
        QueueOp.push ⟨5, 2⟩, QueueOp.push ⟨5, 3⟩] =
      [⟨5, 0⟩, ⟨5, 1⟩, ⟨5, 2⟩, ⟨5, 3⟩] ∧
    heappop [⟨5, 0⟩, ⟨5, 1⟩, ⟨5, 2⟩, ⟨5, 3⟩] =
      some (⟨5, 0⟩, [⟨5, 2⟩, ⟨5, 1⟩, ⟨5, 3⟩]) ∧
    heappop [⟨5, 2⟩, ⟨5, 1⟩, ⟨5, 3⟩] =
      some (⟨5, 2⟩, [⟨5, 1⟩, ⟨5, 3⟩]) := by
  refine ⟨?_, ?_, ?_⟩ <;> decide

/-- Witness for claim C3: after pushing priorities 3 then 7, the popped
view (priority 3) is at most the remaining view (priority 7). -/
theorem viewQueue_pop_min_witness :
    (⟨3, 0⟩ : PyView).pri ≤ (⟨7, 1⟩ : PyView).pri :=
  viewQueue_pop_min [QueueOp.push ⟨3, 0⟩, QueueOp.push ⟨7, 1⟩] ⟨3, 0⟩
    [⟨7, 1⟩] (by decide) ⟨7, 1⟩ (by decide)

end Dbpibus
